import Mathlib

/-!
Verification development for the CoBaLD DatasetTools repository.

The Python sources are shallowly embedded:
* `src/parsing.py` — field, token and sentence parsers/validators, and the
  incremental file reader (modelled over the list of file lines);
* `train_test_split.py` — tagset extraction, greedy minimum coverage and the
  stratified train/test splitter.

Python strings are Lean `String`s processed via their character lists so that
every definition evaluates by kernel reduction.  Fallible Python code
(functions that can raise) returns `Except String α`.  Machine `float`s of the
splitter (`train_fraction`, `numpy.isclose`) are modelled as rationals.
-/

namespace DatasetTools

/-! ### Python string primitives -/

/-- Python `str.split(sep)` for a single-character separator, on character
lists: `"a|b" ↦ [['a'],['b']]`, `"" ↦ [[]]`, `"a||" ↦ [['a'],[],[]]`. -/
def splitOnChar (c : Char) : List Char → List (List Char)
  | [] => [[]]
  | x :: xs =>
    let r := splitOnChar c xs
    if x = c then [] :: r
    else
      match r with
      | [] => [[x]]
      | y :: ys => (x :: y) :: ys

/-- Joins character-list chunks with the separator `c`; inverse of
`splitOnChar` used to model Python `split(sep, 1)`. -/
def joinChar (c : Char) : List (List Char) → List Char
  | [] => []
  | [x] => x
  | x :: xs => x ++ c :: joinChar c xs

/-- Python `str.split(sep)` producing strings. -/
def pySplit (s : String) (c : Char) : List String :=
  (splitOnChar c s.data).map String.mk

/-- Python `key, value = item.split(sep, 1)`: `none` when the separator is
absent (the Python unpacking raises), otherwise the part before the first
separator and everything after it. -/
def pySplit1 (s : String) (c : Char) : Option (String × String) :=
  match splitOnChar c s.data with
  | [_] => none
  | a :: rest => some (String.mk a, String.mk (joinChar c rest))
  | [] => none

/-- Python `str.strip()` (the corpus format only uses ASCII whitespace). -/
def pyStrip (s : String) : String :=
  String.mk (((s.data.dropWhile Char.isWhitespace).reverse.dropWhile
    Char.isWhitespace).reverse)

/-- Python `str.isdecimal()` (the corpus format only uses ASCII digits). -/
def pyIsDecimal (s : String) : Bool :=
  !s.data.isEmpty && s.data.all Char.isDigit

/-- Python `int(s)` on a decimal string. -/
def strToNat (s : String) : Nat :=
  s.data.foldl (fun a c => a * 10 + (c.toNat - 48)) 0

/-! ### Field parsers (`src/parsing.py`, field level) -/

/-- `ROOT_HEAD = 0` -/
def ROOT_HEAD : Nat := 0

/-- `parse_nullable`: `""`/`"_"` map to absent, anything else passes through. -/
def parse_nullable (field : String) : Option String :=
  if field = "" ∨ field = "_" then none else some field

/-- `is_null_index`: `"a.b"` with both parts decimal; any other shape
(including a different number of `.`-separated parts) is `False`. -/
def is_null_index (x : String) : Bool :=
  match splitOnChar '.' x.data with
  | [a, b] => pyIsDecimal (String.mk a) && pyIsDecimal (String.mk b)
  | _ => false

/-- `is_range_index`: `"a-b"` with both parts decimal. -/
def is_range_index (x : String) : Bool :=
  match splitOnChar '-' x.data with
  | [a, b] => pyIsDecimal (String.mk a) && pyIsDecimal (String.mk b)
  | _ => false

/-- `parse_id`: accepts decimal, null-index and range-index ids. -/
def parse_id (field : String) : Except String String :=
  if ¬pyIsDecimal field ∧ ¬is_null_index field ∧ ¬is_range_index field then
    .error ("Incorrect token id: " ++ field ++ ".")
  else .ok field

/-- `parse_word`: the form must be non-empty. -/
def parse_word (field : String) : Except String String :=
  if field = "" then .error "Token form cannot be empty."
  else .ok field

/-- `parse_joint_field`: split on the outer separator, split each item at the
first inner separator, and collect into an insertion-ordered mapping,
rejecting duplicate keys.  A missing inner separator in the whole field or in
one item raises. -/
def parse_joint_field (field : String) (inner outer : Char) :
    Except String (List (String × String)) :=
  if ¬field.data.contains inner then
    .error ("Non-empty field " ++ field ++ " must contain separator.")
  else
    (pySplit field outer).foldlM (fun acc item =>
      match pySplit1 item inner with
      | none => .error "not enough values to unpack"
      | some (key, value) =>
        if (acc.map Prod.fst).contains key then
          .error ("Field " ++ field ++ " has duplicate key " ++ key ++ ".")
        else .ok (acc ++ [(key, value)])) []

/-- `parse_feats`: absent on `""`/`"_"`; otherwise must tokenize as
`key=value` pairs on `|`/`=`; the original string is returned. -/
def parse_feats (field : String) : Except String (Option String) :=
  if field = "" ∨ field = "_" then .ok none
  else
    match parse_joint_field field '=' '|' with
    | .error e => .error e
    | .ok _ => .ok (some field)

/-- `parse_head`: absent on `""`/`"_"`; otherwise a decimal integer.  The
source additionally rejects negative heads; a decimal literal is never
negative, but the check is kept as in the source. -/
def parse_head (field : String) : Except String (Option Nat) :=
  if field = "" ∨ field = "_" then .ok none
  else if ¬pyIsDecimal field then
    .error ("Non-empty head must be a decimal number, not " ++ field ++ ".")
  else
    let head : Int := (strToNat field : Int)
    if head < 0 then
      .error "Non-empty head must be a positive integer."
    else .ok (some head.toNat)

/-- `parse_deps`: absent on `""`/`"_"`; otherwise tokenized by
`parse_joint_field` with `':'`/`'|'`; empty mappings (unreachable) and
non-decimal non-null-index keys are rejected.  The source serializes the
mapping with `json.dumps`; the embedding keeps the mapping itself, the
serialization being a bijective encoding of it. -/
def parse_deps (field : String) :
    Except String (Option (List (String × String))) :=
  if field = "" ∨ field = "_" then .ok none
  else
    match parse_joint_field field ':' '|' with
    | .error e => .error e
    | .ok token_deps =>
      if token_deps.length = 0 then
        .error ("Empty deps are not allowed: " ++ field ++ ".")
      else if token_deps.any
          (fun p => !(pyIsDecimal p.1 || is_null_index p.1)) then
        .error "Deps head must be either integer or float (x.1)."
      else .ok (some token_deps)

/-! ### Token level (`src/parsing.py`, token level) -/

/-- A parsed token: the values of the Python token dict, with `deps` kept as
the parsed mapping (the source stores its `json.dumps` serialization). -/
structure Token where
  id : String
  word : String
  lemma_ : Option String
  upos : Option String
  xpos : Option String
  feats : Option String
  head : Option Nat
  deprel : Option String
  deps : Option (List (String × String))
  misc : Option String
  deepslot : Option String
  semclass : Option String
deriving DecidableEq, Repr

/-- The inline lemma expression of `parse_token`:
`fields[2] if fields[2] != "" else None`.  Unlike `parse_nullable`, it maps
only the empty string (not `"_"`) to absent. -/
def parse_lemma (field : String) : Option String :=
  if field = "" then none else some field

/-- Python `token['head'] == token['id']` in `validate_regular_token`:
`head` is `None` or an `int` while `id` is a `str`, and in Python `None`
never equals a `str` and an `int` never equals a `str`, so the comparison is
`False` whatever the values are. -/
def pyHeadEqId : Option Nat → String → Bool
  | none, _ => false
  | some _, _ => false

/-- `validate_null_token`. -/
def validate_null_token (t : Token) : Except String Unit :=
  if t.word ≠ "#NULL" then
    .error "Null token must have #NULL form."
  else if t.head ≠ none then
    .error "Null token must have no head."
  else if t.deprel ≠ none then
    .error "Null token must have no deprel."
  else if t.misc ≠ some "ellipsis" then
    -- Python `token['misc'] != 'ellipsis'`: also fires when misc is None
    .error "Null token must have ellipsis misc."
  else .ok ()

/-- `validate_range_token`: all fields absent, except the lemma which must be
the literal string `"_"` (Python `token['lemma'] != '_'`; a `None` lemma also
fails that check). -/
def validate_range_token (t : Token) : Except String Unit :=
  if t.lemma_ ≠ some "_" then .error "Range token lemma must be _."
  else if t.upos ≠ none then .error "Range token upos must be _."
  else if t.xpos ≠ none then .error "Range token xpos must be _."
  else if t.feats ≠ none then .error "Range token feats must be _."
  else if t.head ≠ none then .error "Range token head must be _."
  else if t.deprel ≠ none then .error "Range token deprel must be _."
  else if t.misc ≠ none then .error "Range token misc must be _."
  else if t.deepslot ≠ none then .error "Range token deepslot must be _."
  else if t.semclass ≠ none then .error "Range token semclass must be _."
  else .ok ()

/-- `validate_regular_token`: the head/id self-loop comparison (see
`pyHeadEqId`), then `for head in json.loads(token['deps'])`.  When `deps` is
absent the dict holds `None` and `json.loads(None)` raises `TypeError`, which
the embedding reports as an error. -/
def validate_regular_token (t : Token) : Except String Unit :=
  if pyHeadEqId t.head t.id then .error "Self-loop detected in head."
  else
    match t.deps with
    | none =>
      .error "TypeError: the JSON object must be str, not NoneType"
    | some m =>
      if m.any (fun p => p.1 = t.id) then
        .error "Self-loop detected in deps."
      else .ok ()

/-- `validate_token`: dispatch on the id's kind. -/
def validate_token (t : Token) : Except String Unit :=
  if pyIsDecimal t.id then validate_regular_token t
  else if is_range_index t.id then validate_range_token t
  else if is_null_index t.id then validate_null_token t
  else .error ("Incorrect token id: " ++ t.id ++ ".")

/-- `parse_token`: split the line on tabs, strip each field, require exactly
12 fields, parse each field in the dict-literal order and validate the token;
any failure is wrapped with the raw first field. -/
def parse_token (line : String) : Except String Token :=
  let fields := (pySplit line '\t').map pyStrip
  let f := fun i => fields.getD i ""
  let r : Except String Token := do
    if fields.length ≠ 12 then
      throw "line must have 12 fields"
    let id ← parse_id (f 0)
    let word ← parse_word (f 1)
    let feats ← parse_feats (f 5)
    let head ← parse_head (f 6)
    let deps ← parse_deps (f 8)
    let t : Token :=
      { id := id, word := word, lemma_ := parse_lemma (f 2),
        upos := parse_nullable (f 3), xpos := parse_nullable (f 4),
        feats := feats, head := head, deprel := parse_nullable (f 7),
        deps := deps, misc := parse_nullable (f 9),
        deepslot := parse_nullable (f 10), semclass := parse_nullable (f 11) }
    validate_token t
    pure t
  match r with
  | .ok t => .ok t
  | .error e =>
    .error ("Validation failed on token " ++ fields.getD 0 "" ++ ": " ++ e)

/-! ### Sentence level (`src/parsing.py`, sentence level) -/

/-- The parallel per-token sequences of a parsed sentence (the keys the
Python `parse_sentence` initializes). -/
structure Sentence where
  ids : List String
  words : List String
  lemmas : List (Option String)
  upos : List (Option String)
  xpos : List (Option String)
  feats : List (Option String)
  heads : List (Option Nat)
  deprels : List (Option String)
  deps : List (Option (List (String × String)))
  miscs : List (Option String)
  deepslots : List (Option String)
  semclasses : List (Option String)
deriving DecidableEq, Repr

/-- A sentence with no tokens; used only as the out-of-range default of
list indexing. -/
def emptySentence : Sentence :=
  { ids := [], words := [], lemmas := [], upos := [], xpos := [], feats := [],
    heads := [], deprels := [], deps := [], miscs := [], deepslots := [],
    semclasses := [] }

/-- `validate_sentence`: non-empty, equal column lengths, contiguous decimal
ids (`min`/`max` over an empty id set raises, as in Python), unique root when
any head is present, and head/deps referential integrity. -/
def validate_sentence (s : Sentence) : Except String Unit :=
  if s.words.length = 0 then .error "Empty sentence."
  else if ¬(s.lemmas.length = s.words.length ∧
      s.upos.length = s.words.length ∧
      s.xpos.length = s.words.length ∧
      s.feats.length = s.words.length ∧
      s.heads.length = s.words.length ∧
      s.deprels.length = s.words.length ∧
      s.deps.length = s.words.length ∧
      s.miscs.length = s.words.length ∧
      s.deepslots.length = s.words.length ∧
      s.semclasses.length = s.words.length) then
    .error "Inconsistent token counts in sentence."
  else
    match (s.ids.filter pyIsDecimal).map strToNat with
    | [] => .error "ValueError: min() arg is an empty sequence"
    | x :: xs =>
      let int_ids := x :: xs
      let lo := xs.foldl min x
      let hi := xs.foldl max x
      if ¬(int_ids.toFinset = (List.range' lo (hi + 1 - lo)).toFinset) then
        .error "ids are not contiguous."
      else
        let has_labels := s.heads.any Option.isSome
        let roots_count :=
          (s.heads.filter (fun h => h == some ROOT_HEAD)).length
        if has_labels ∧ roots_count ≠ 1 then
          .error "There must be exactly one ROOT in a sentence."
        else
          let sentence_heads :=
            (s.heads.filterMap id).filter (fun h => h ≠ ROOT_HEAD)
          if sentence_heads.any (fun h => !(int_ids.contains h)) then
            .error "Heads are inconsistent with sentence ids."
          else
            let deps_heads := (s.deps.filterMap id).flatMap
              (fun m => (m.map Prod.fst).filter (fun h => h ≠ "0"))
            if deps_heads.any (fun h => !(s.ids.contains h)) then
              .error "Deps heads are inconsistent with sentence ids."
            else .ok ()

/-- The sentence record produced by `parse_sentence`: the Python value
`sentence | metadata`, a dict whose keys are the twelve column keys plus
whatever keys the metadata mapping holds. -/
abbrev SentenceRecord := Sentence × List (String × String)

/-- The twelve column keys of the `sentence` dict built by `parse_sentence`. -/
def sentenceColKeys : List String :=
  ["ids", "words", "lemmas", "upos", "xpos", "feats", "heads", "deprels",
   "deps", "miscs", "deepslots", "semclasses"]

/-- Key membership in the merged dict `sentence | metadata`. -/
def recordHasKey (r : SentenceRecord) (k : String) : Bool :=
  sentenceColKeys.contains k || (r.2.map Prod.fst).contains k

/-- The token-parsing loop of `parse_sentence`: parse each line in order,
stopping at the first failure. -/
def parseTokens : List String → Except String (List Token)
  | [] => .ok []
  | line :: rest =>
    match parse_token line with
    | .error e => .error e
    | .ok t =>
      match parseTokens rest with
      | .error e => .error e
      | .ok ts => .ok (t :: ts)

/-- The columns accumulated by `parse_sentence`: each parsed token's fields
appended, in order, into the twelve parallel sequences. -/
def sentenceOfTokens (tokens : List Token) : Sentence :=
  { ids := tokens.map Token.id, words := tokens.map Token.word,
    lemmas := tokens.map Token.lemma_, upos := tokens.map Token.upos,
    xpos := tokens.map Token.xpos, feats := tokens.map Token.feats,
    heads := tokens.map Token.head, deprels := tokens.map Token.deprel,
    deps := tokens.map Token.deps, miscs := tokens.map Token.misc,
    deepslots := tokens.map Token.deepslot,
    semclasses := tokens.map Token.semclass }

/-- `parse_sentence`: parse every token line in order, collect the parallel
per-field sequences, validate, and return the columns merged with the
metadata mapping; every failure is wrapped into one sentence-level error. -/
def parse_sentence (token_lines : List String)
    (metadata : List (String × String)) : Except String SentenceRecord :=
  match parseTokens token_lines with
  | .error e => .error ("Validation failed on sentence: " ++ e)
  | .ok tokens =>
    match validate_sentence (sentenceOfTokens tokens) with
    | .error e => .error ("Validation failed on sentence: " ++ e)
    | .ok _ => .ok (sentenceOfTokens tokens, metadata)

/-- Python dict assignment `metadata[key] = value`: overwrite in place if the
key exists, append otherwise. -/
def mdUpdate (md : List (String × String)) (k v : String) :
    List (String × String) :=
  if (md.map Prod.fst).contains k then
    md.map (fun p => if p.1 = k then (k, v) else p)
  else md ++ [(k, v)]

/-- The loop body of `parse_incr`, over the file's lines: blank lines flush
the buffered block, `#`-lines holding `=` update the metadata buffer when the
key is `sent_id` or `text`, all other lines are buffered as token lines, and
a trailing unterminated block is flushed at end of input.  The generator is
modelled strictly: the first raised error aborts the whole sequence. -/
def parse_incr_go : List String → List (String × String) → List String →
    Except String (List SentenceRecord)
  | [], metadata, token_lines =>
    if token_lines.length ≠ 0 then
      (parse_sentence token_lines metadata).map (fun r => [r])
    else .ok []
  | line :: rest, metadata, token_lines =>
    let l := pyStrip line
    if l = "" then
      if token_lines.length ≠ 0 then
        match parse_sentence token_lines metadata with
        | .error e => .error e
        | .ok r => (parse_incr_go rest [] []).map (fun rs => r :: rs)
      else parse_incr_go rest metadata token_lines
    else if l.data.headD ' ' = '#' then
      if l.data.contains '=' then
        match pySplit1 (String.mk l.data.tail) '=' with
        | some (k, v) =>
          let key := pyStrip k
          let value := pyStrip v
          if key = "sent_id" ∨ key = "text" then
            parse_incr_go rest (mdUpdate metadata key value) token_lines
          else parse_incr_go rest metadata token_lines
        | none => parse_incr_go rest metadata token_lines
      else parse_incr_go rest metadata token_lines
    else parse_incr_go rest metadata (token_lines ++ [l])

/-- `parse_incr`, over the list of the file's lines. -/
def parse_incr (lines : List String) : Except String (List SentenceRecord) :=
  parse_incr_go lines [] []

/-! ### Stratified splitter (`train_test_split.py`)

Python `set`s are modelled as duplicate-free lists in first-insertion order
(CPython iteration order over sets and dict keys is fixed here to insertion
order; none of the proved properties depends on that choice). -/

/-- `s.add(x)` under the list model of sets. -/
def insNew {α : Type} [DecidableEq α] (acc : List α) (x : α) : List α :=
  if x ∈ acc then acc else acc ++ [x]

/-- `set(l)`: the duplicate-free list of `l`'s elements in first-occurrence
order. -/
def pyDedup {α : Type} [DecidableEq α] (l : List α) : List α :=
  l.foldl insNew []

/-- `a |= set-of(b)`. -/
def pySetUnion {α : Type} [DecidableEq α] (a b : List α) : List α :=
  b.foldl insNew a

/-- `sentence[name]` for the string-valued token columns that serve as
stratification categories (the non-nullable `ids`/`words` columns are lifted
into the same `Option`-valued shape; absent entries are discarded by the
caller anyway).  The integer-valued `heads` column and the metadata keys are
not part of the modelled tag universe: looking them up is treated like the
`KeyError` of an unknown key. -/
def getColumn (s : Sentence) : String → Option (List (Option String))
  | "ids" => some (s.ids.map some)
  | "words" => some (s.words.map some)
  | "lemmas" => some s.lemmas
  | "upos" => some s.upos
  | "xpos" => some s.xpos
  | "feats" => some s.feats
  | "deprels" => some s.deprels
  | "miscs" => some s.miscs
  | "deepslots" => some s.deepslots
  | "semclasses" => some s.semclasses
  | _ => none

/-- `extract_sentence_tagset`: for `deps`, the set of relation labels (the
mapping's values) over all present deps entries; otherwise the set of the
column's entries with `None` discarded. -/
def extract_sentence_tagset (s : Sentence) (tagset_name : String) :
    Except String (List String) :=
  if tagset_name = "deps" then
    .ok (pyDedup ((s.deps.filterMap id).flatMap (fun m => m.map Prod.snd)))
  else
    match getColumn s tagset_name with
    | some col => .ok (pyDedup (col.filterMap id))
    | none => .error ("KeyError: " ++ tagset_name)

/-- Total variant of `extract_sentence_tagset`, used to describe the built
indexes once the extraction of every (sentence, category) pair is known to
succeed; on the error case it returns the empty tagset. -/
def extractD (s : Sentence) (tagset_name : String) : List String :=
  ((extract_sentence_tagset s tagset_name).toOption).getD []

/-- One inverted tagset: a dict from tag to the set of indices of the
sentences containing that tag. -/
abbrev InvTagset := List (String × List Nat)

/-- The per-category dict of inverted tagsets. -/
abbrev InvTagsets := List (String × InvTagset)

/-- `sum(len(inv_tagset) for inv_tagset in inv_tagsets.values())`. -/
def totalTags (invs : InvTagsets) : Nat :=
  (invs.map (fun p => p.2.length)).sum

/-- `min(inv_tagset.items(), key=len of the index set)`: the first item
achieving the minimal index-set size, `none` on an empty dict. -/
def minItem : InvTagset → Option (String × List Nat)
  | [] => none
  | x :: xs =>
    some (xs.foldl (fun best y =>
      if y.2.length < best.2.length then y else best) x)

/-- The rarest-tag scan of `build_min_coverage`: iterate the categories in
order, keeping the first candidate and replacing it only on a strictly
smaller index-set size. -/
def findRarestAux (acc : Option (String × String × List Nat)) :
    InvTagsets → Option (String × String × List Nat)
  | [] => acc
  | (cat, inv) :: rest =>
    match minItem inv with
    | none => findRarestAux acc rest
    | some (tag, idxs) =>
      match acc with
      | none => findRarestAux (some (cat, tag, idxs)) rest
      | some best =>
        findRarestAux
          (if idxs.length < best.2.2.length then some (cat, tag, idxs)
           else acc) rest

/-- The rarest remaining tag over all categories, with its category and its
index set. -/
def findRarest (invs : InvTagsets) : Option (String × String × List Nat) :=
  findRarestAux none invs

/-- `inv_tagsets[cat].pop(tag)`: drop the tag's entry from that category. -/
def popTag (invs : InvTagsets) (cat tag : String) : InvTagsets :=
  invs.map (fun p =>
    if p.1 = cat then (p.1, p.2.filter (fun q => q.1 ≠ tag)) else p)

/-- Drop, in every category, every tag whose index set contains the chosen
sentence. -/
def removeCovered (invs : InvTagsets) (j : Nat) : InvTagsets :=
  invs.map (fun p => (p.1, p.2.filter (fun q => ¬ j ∈ q.2)))

/-- The greedy loop of `build_min_coverage`.  The fuel only bounds the
recursion: each pass removes at least the rarest tag's entry, so with fuel
`totalTags invs + 1` the `0` case is never reached (`coverLoop_covers` below
does not rely on that bound being tight).  The `[]` index-set case mirrors
Python's `list(...)[0]` on an empty set; index sets are built non-empty and
never shrink, so it is equally unreachable. -/
def coverLoop : Nat → InvTagsets → List Nat → List Nat
  | 0, _, cover => cover
  | fuel + 1, invs, cover =>
    match findRarest invs with
    | none => cover
    | some (cat, tag, idxs) =>
      match idxs with
      | [] => cover
      | j :: _ =>
        coverLoop fuel (removeCovered (popTag invs cat tag) j) (insNew cover j)

/-- `tagsets[name]`: the union of every sentence's tagset for the category,
in sentence order. -/
def allTags (sentences : List Sentence) (tagset_name : String) : List String :=
  sentences.foldl (fun acc s => pySetUnion acc (extractD s tagset_name)) []

/-- The inverted indexes `inv_tagsets`: one entry per (deduplicated) category
name, mapping each tag of the category's universe to the ascending list of
indices of the sentences whose tagset contains it — exactly the index sets
the Python construction accumulates by iterating the sentences in order. -/
def initInvs (sentences : List Sentence) (tagsets_names : List String) :
    InvTagsets :=
  (pyDedup tagsets_names).map (fun n =>
    (n, (allTags sentences n).map (fun tag =>
      (tag, (List.range sentences.length).filter
        (fun i => tag ∈ extractD (sentences.getD i emptySentence) n)))))

/-- The inner loop of the extraction phase: extract the sentence's tagset for
each requested category, stopping at the first failure. -/
def checkExtractsRow (s : Sentence) : List String → Except String Unit
  | [] => .ok ()
  | n :: ns =>
    match extract_sentence_tagset s n with
    | .error e => .error e
    | .ok _ => checkExtractsRow s ns

/-- The extraction phase of `build_min_coverage`: visit every
(sentence, category) pair in the source's loop order, propagating the first
failure. -/
def checkExtracts : List Sentence → List String → Except String Unit
  | [], _ => .ok ()
  | s :: ss, ns =>
    match checkExtractsRow s ns with
    | .error e => .error e
    | .ok _ => checkExtracts ss ns

/-- `build_min_coverage`: extract each sentence's tagset for each requested
category (any lookup failure aborts, as the Python `KeyError` would), build
the inverted indexes and run the greedy covering loop starting from an empty
cover.  The extracted values are recovered by `initInvs` through `extractD`,
which agrees with the extraction phase whenever that phase succeeded. -/
def build_min_coverage (sentences : List Sentence)
    (tagsets_names : List String) : Except String (List Nat) :=
  match checkExtracts sentences tagsets_names with
  | .error e => .error e
  | .ok _ =>
    .ok (coverLoop (totalTags (initInvs sentences tagsets_names) + 1)
      (initInvs sentences tagsets_names) [])

/-- `[x for i, x in enumerate(l) if keep(i)]`, with `i0` the index of the
first element. -/
def filterByIndex {α : Type} (keep : Nat → Bool) : List α → Nat → List α
  | [], _ => []
  | x :: xs, i0 =>
    if keep i0 then x :: filterByIndex keep xs (i0 + 1)
    else filterByIndex keep xs (i0 + 1)

/-- The loop state of `train_test_split`: the train and test accumulators and
the remaining pool. -/
structure SplitState where
  train : List Sentence
  test : List Sentence
  pool : List Sentence
deriving DecidableEq, Repr

/-- The allocation loop of `train_test_split`: while both accumulators are
below target, move a covering set of the pool into train, then a covering set
of the remaining pool into test.  An iteration that moves nothing leaves the
state unchanged, so the Python loop then runs forever; the fuel (set to
`N + 1` by `train_test_split`, enough for every terminating run, since every
other iteration strictly shrinks the pool) turns that divergence into an
error. -/
def splitLoop (tagsets_names : List String) (ttrain ttest : Nat) :
    Nat → SplitState → Except String SplitState
  | fuel, st =>
    if st.train.length < ttrain ∧ st.test.length < ttest then
      match fuel with
      | 0 => .error "the allocation loop makes no progress"
      | fuel + 1 =>
        match build_min_coverage st.pool tagsets_names with
        | .error e => .error e
        | .ok cov =>
          let train := st.train ++ filterByIndex (fun i => cov.contains i) st.pool 0
          let pool := filterByIndex (fun i => !cov.contains i) st.pool 0
          match build_min_coverage pool tagsets_names with
          | .error e => .error e
          | .ok cov2 =>
            splitLoop tagsets_names ttrain ttest fuel
              { train := train,
                test := st.test ++ filterByIndex (fun i => cov2.contains i) pool 0,
                pool := filterByIndex (fun i => !cov2.contains i) pool 0 }
    else .ok st

/-- Python `int(q)`: truncation toward zero (`⌊·⌋` is the floor). -/
def pyInt (q : ℚ) : ℤ :=
  if q < 0 then -(⌊-q⌋) else ⌊q⌋

/-- `target_train_size = int(train_fraction * sentence_count)`. -/
def target_train_size (f : ℚ) (n : ℕ) : ℕ :=
  (pyInt (f * n)).toNat

/-- `target_test_size = sentence_count - target_train_size`. -/
def target_test_size (f : ℚ) (n : ℕ) : ℕ :=
  n - target_train_size f n

/-- `numpy.isclose(a, b, atol=0.05)` with numpy's default relative tolerance
`rtol = 1e-05`: `|a - b| <= atol + rtol * |b|`. -/
def pyIsClose (a b : ℚ) : Prop :=
  |a - b| ≤ 1 / 20 + |b| / 100000

instance (a b : ℚ) : Decidable (pyIsClose a b) :=
  inferInstanceAs (Decidable (_ ≤ _))

/-- `train_test_split`: validate the fraction, run the allocation loop from
empty accumulators, hand every unallocated sentence to whichever side missed
its target, and check the two final `assert`s (a failing `assert`, like the
`ZeroDivisionError` on an empty input, means the Python call does not
return). -/
def train_test_split (sentences : List Sentence) (train_fraction : ℚ)
    (tagsets_names : List String) :
    Except String (List Sentence × List Sentence) :=
  if ¬(0 < train_fraction ∧ train_fraction < 1) then
    .error "train_fraction must be between 0.0 and 1.0"
  else
    let N := sentences.length
    let ttrain := target_train_size train_fraction N
    let ttest := target_test_size train_fraction N
    match splitLoop tagsets_names ttrain ttest (N + 1)
      { train := [], test := [], pool := sentences } with
    | .error e => .error e
    | .ok st =>
      let train :=
        if st.train.length < ttrain then st.train ++ st.pool else st.train
      let test :=
        if st.train.length < ttrain then st.test else st.test ++ st.pool
      if train.length + test.length = N then
        if N = 0 then .error "ZeroDivisionError: division by zero"
        else if pyIsClose ((train.length : ℚ) / (N : ℚ)) train_fraction then
          .ok (train, test)
        else .error "AssertionError: realized fraction is not close to f"
      else .error "AssertionError: sizes do not sum to the input size"

/-- The invariant carried by the inverted indexes: every tracked index set is
non-empty, and membership of an index in a tag's set means the property `P`
(read: "the sentence at that position contains the tag"). -/
def GoodInv (P : String → String → Nat → Prop) (invs : InvTagsets) : Prop :=
  ∀ p ∈ invs, ∀ q ∈ p.2, q.2 ≠ [] ∧ ∀ i ∈ q.2, P p.1 q.1 i

/-- The coverage property tracked through the covering loop: position `i` is
inside the pool and the sentence there contains the tag under the category. -/
def CoversAt (pool : List Sentence) (cat tag : String) (i : Nat) : Prop :=
  i < pool.length ∧ tag ∈ extractD (pool.getD i emptySentence) cat

/-- A one-token-column sentence carrying the single upos tag `t`. -/
def sTag (t : String) : Sentence := { emptySentence with upos := [some t] }

/-- A two-token-column sentence carrying the upos tags `a` and `b`. -/
def sTag2 (a b : String) : Sentence :=
  { emptySentence with upos := [some a, some b] }

/-- The 100-sentence input of the C6 witness: one sentence with tags
`{t0, B}`, 79 sentences with one fresh tag each, and 20 sentences tagged
`{B}`.  The first covering pass selects exactly the first 80 sentences, the
first test pass selects one `B`-sentence, and the loop then stops with the 19
remaining sentences absorbed into test. -/
def W100 : List Sentence :=
  [sTag2 ("t0") ("B")] ++
    ((List.range 79).map (fun i => sTag ((Nat.toDigits 10 (i + 1)).asString))) ++
    List.replicate 20 (sTag ("B"))

deriving instance DecidableEq for Except

/-! ### Helper lemmas: splitting and decimal strings -/

theorem splitOnChar_eq_single {c : Char} :
    ∀ {l : List Char}, (∀ a ∈ l, a ≠ c) → splitOnChar c l = [l] := by
  intro l
  induction l with
  | nil => intro _; rfl
  | cons x xs ih =>
    intro h
    simp only [splitOnChar]
    rw [ih (fun a ha => h a (List.mem_cons_of_mem _ ha))]
    rw [if_neg (h x (List.mem_cons_self x xs))]

theorem digit_ne_dash {a : Char} (h : a.isDigit = true) : a ≠ '-' := by
  intro rfl_eq
  subst rfl_eq
  exact absurd h (by decide)

theorem digit_ne_dot {a : Char} (h : a.isDigit = true) : a ≠ '.' := by
  intro rfl_eq
  subst rfl_eq
  exact absurd h (by decide)

theorem pyIsDecimal_all_digits {x : String} (h : pyIsDecimal x = true) :
    ∀ a ∈ x.data, a.isDigit = true := by
  have h2 := h
  simp only [pyIsDecimal, Bool.and_eq_true, List.all_eq_true] at h2
  exact fun a ha => h2.2 a ha

theorem not_decimal_of_range {x : String} (h : is_range_index x = true) :
    pyIsDecimal x = false := by
  by_contra hne
  have hdec : pyIsDecimal x = true := by
    cases hd : pyIsDecimal x
    · exact absurd hd hne
    · rfl
  have hall : ∀ a ∈ x.data, a ≠ '-' :=
    fun a ha => digit_ne_dash (pyIsDecimal_all_digits hdec a ha)
  unfold is_range_index at h
  rw [splitOnChar_eq_single hall] at h
  cases h

theorem not_decimal_of_null {x : String} (h : is_null_index x = true) :
    pyIsDecimal x = false := by
  by_contra hne
  have hdec : pyIsDecimal x = true := by
    cases hd : pyIsDecimal x
    · exact absurd hd hne
    · rfl
  have hall : ∀ a ∈ x.data, a ≠ '.' :=
    fun a ha => digit_ne_dot (pyIsDecimal_all_digits hdec a ha)
  unfold is_null_index at h
  rw [splitOnChar_eq_single hall] at h
  cases h

/-! ### Helper lemmas: the token-parsing loop -/

theorem parseTokens_ok_mem :
    ∀ {lines : List String} {ts : List Token}, parseTokens lines = .ok ts →
      ∀ t ∈ ts, ∃ l ∈ lines, parse_token l = .ok t := by
  intro lines
  induction lines with
  | nil =>
    intro ts h t ht
    simp only [parseTokens] at h
    cases h
    cases ht
  | cons l ls ih =>
    intro ts h t ht
    simp only [parseTokens] at h
    cases hx : parse_token l with
    | error e => rw [hx] at h; cases h
    | ok t0 =>
      rw [hx] at h
      cases hy : parseTokens ls with
      | error e => rw [hy] at h; cases h
      | ok ts0 =>
        rw [hy] at h
        cases h
        rcases List.mem_cons.mp ht with rfl | hmem
        · exact ⟨l, List.mem_cons_self l ls, hx⟩
        · obtain ⟨l1, hl1, hp1⟩ := ih hy t hmem
          exact ⟨l1, List.mem_cons_of_mem _ hl1, hp1⟩

theorem parseTokens_ok_ne_nil {lines : List String} {ts : List Token}
    (hne : lines ≠ []) (h : parseTokens lines = .ok ts) : ts ≠ [] := by
  cases lines with
  | nil => exact absurd rfl hne
  | cons l ls =>
    simp only [parseTokens] at h
    cases hx : parse_token l with
    | error e => rw [hx] at h; cases h
    | ok t0 =>
      rw [hx] at h
      cases hy : parseTokens ls with
      | error e => rw [hy] at h; cases h
      | ok ts0 =>
        rw [hy] at h
        cases h
        exact List.cons_ne_nil t0 ts0

/-! ### Claims C1, C2, C3 (token level) -/

/-- C1.  The claim says a regular token whose deps column is `"_"`/empty (and
whose other fields are well-formed) parses successfully with an absent deps
attribute.  The code disagrees: `parse_deps` does map `"_"` to an absent
value, but `validate_regular_token` then feeds that `None` into `json.loads`,
which raises `TypeError`, so `parse_token` fails on every regular token with
absent deps.  The same line with an explicit deps entry is accepted, showing
the failure is caused by the absent deps alone. -/
theorem C1_regular_token_absent_deps_fails :
    parse_deps ("_") = .ok none ∧
    parse_token ("1\tw\t_\t_\t_\t_\t0\t_\t_\t_\t_\t_") =
      .error ("Validation failed on token 1: TypeError: the JSON object must be str, not NoneType") ∧
    (parse_token ("1\tw\t_\t_\t_\t_\t0\t_\t0:root\t_\t_\t_")).isOk = true := by
  refine ⟨by decide, by decide, by decide⟩

/-- C2.  The claim says a regular token whose head equals its own id (id=3,
head=3) is rejected with the self-loop error.  The code's check compares the
parsed head (an `int`) with the id (a `str`), which is always `False` in
Python, so the token is accepted: `parse_token` returns it with `id = "3"`
and `head = 3`. -/
theorem C2_head_self_loop_not_detected :
    (parse_token ("3\tw\t_\t_\t_\t_\t3\t_\t1:r\t_\t_\t_")).map
      (fun t => (t.id, t.head)) = .ok (("3" : String), some 3) ∧
    strToNat ("3") = 3 ∧
    pyHeadEqId (some 3) ("3") = false := by
  refine ⟨by decide, by decide, by decide⟩

/-- C3 counterexample.  The claim includes `lemma` among the columns for
which the surface value `"_"` parses to an absent value; the code keeps the
literal `"_"` for the lemma column (only the empty string becomes absent),
both in the inline field expression and through the whole token parse. -/
theorem C3_lemma_underscore_counterexample :
    parse_lemma ("_") = some ("_") ∧
    ¬ parse_lemma ("_") = none ∧
    (parse_token ("1\tw\t_\t_\t_\t_\t0\t_\t0:root\t_\t_\t_")).map
      (fun t => t.lemma_) = .ok (some ("_")) := by
  refine ⟨by decide, by decide, by decide⟩

/-- C3, as amended.  Nullability round-trips for the columns parsed with
`parse_nullable` (upos, xpos, deprel, misc, deepslot, semclass): `""` and
`"_"` give absent with every other value passing through unchanged; `feats`
maps `""`/`"_"` to absent and returns any other value unchanged whenever it
parses; the lemma column maps only `""` to absent and passes every other
value — including `"_"` — through unchanged. -/
theorem C3_nullability_round_trip (s : String) :
    parse_nullable ("") = none ∧ parse_nullable ("_") = none ∧
    (s ≠ "" → s ≠ "_" → parse_nullable s = some s) ∧
    parse_feats ("") = .ok none ∧ parse_feats ("_") = .ok none ∧
    (∀ v, parse_feats s = .ok (some v) → v = s) ∧
    parse_lemma ("") = none ∧
    (s ≠ "" → parse_lemma s = some s) := by
  refine ⟨by decide, by decide, ?_, by decide, by decide, ?_, by decide, ?_⟩
  · intro h1 h2
    simp [parse_nullable, h1, h2]
  · intro v hv
    unfold parse_feats at hv
    by_cases hs : s = "" ∨ s = "_"
    · rw [if_pos hs] at hv
      cases hv
    · rw [if_neg hs] at hv
      cases hj : parse_joint_field s '=' '|' with
      | error e => rw [hj] at hv; cases hv
      | ok m =>
        rw [hj] at hv
        cases hv
        rfl
  · intro h1
    simp [parse_lemma, h1]

/-- Witness for C3 as amended, at the concrete value `"Sing"`. -/
theorem C3_nullability_round_trip_witness :
    parse_nullable ("Sing") = some ("Sing") ∧
    parse_lemma ("Sing") = some ("Sing") :=
  ⟨(C3_nullability_round_trip ("Sing")).2.2.1 (by decide) (by decide),
   (C3_nullability_round_trip ("Sing")).2.2.2.2.2.2.2 (by decide)⟩

/-! ### Claims C9, C10 (sentence level) -/

/-- C9.  The claim (and the `parse_incr` docstring) says every returned
record carries `sent_id` and `text` keys even when the block had no metadata
lines.  The code returns `sentence | metadata`, so with an empty metadata
mapping the record only has the twelve column keys: `sent_id` and `text` are
absent, from `parse_sentence` as well as from `parse_incr`. -/
theorem C9_metadata_keys_absent_without_metadata :
    (parse_sentence (["1\tw\t_\t_\t_\t_\t0\t_\t0:root\t_\t_\t_"]) []).map
      (fun r => (recordHasKey r ("sent_id"), recordHasKey r ("text"),
        recordHasKey r ("ids"))) = .ok (false, false, true) ∧
    (parse_incr (["1\tw\t_\t_\t_\t_\t0\t_\t0:root\t_\t_\t_"])).map
      (fun rs => rs.map (fun r => recordHasKey r ("sent_id"))) =
      .ok [false] ∧
    (parse_incr (["# sent_id = 1", "1\tw\t_\t_\t_\t_\t0\t_\t0:root\t_\t_\t_"])).map
      (fun rs => rs.map (fun r => recordHasKey r ("sent_id"))) =
      .ok [true] := by
  refine ⟨by decide, by decide, by decide⟩

/-- C10.  A non-empty block in which every token's id is a range index or a
null index — so that no token has a regular decimal id — makes
`parse_sentence` fail even when each token line itself validates: the
contiguity check takes `min`/`max` of the empty set of decimal ids, which
raises. -/
theorem C10_no_regular_id_fails (token_lines : List String)
    (metadata : List (String × String))
    (hne : token_lines ≠ [])
    (hids : ∀ line ∈ token_lines, ∀ t : Token, parse_token line = .ok t →
      is_range_index t.id = true ∨ is_null_index t.id = true) :
    ∃ e, parse_sentence token_lines metadata = .error e := by
  unfold parse_sentence
  cases hpt : parseTokens token_lines with
  | error e => exact ⟨_, rfl⟩
  | ok tokens =>
    have htne : tokens ≠ [] := parseTokens_ok_ne_nil hne hpt
    have hfilter : (sentenceOfTokens tokens).ids.filter pyIsDecimal = [] := by
      rw [List.filter_eq_nil_iff]
      intro a ha
      simp only [sentenceOfTokens, List.mem_map] at ha
      obtain ⟨t, ht, rfl⟩ := ha
      obtain ⟨l, hl, hp⟩ := parseTokens_ok_mem hpt t ht
      rcases hids l hl t hp with hr | hn
      · simp [not_decimal_of_range hr]
      · simp [not_decimal_of_null hn]
    have hwords : (sentenceOfTokens tokens).words.length = tokens.length := by
      simp [sentenceOfTokens]
    have hval : validate_sentence (sentenceOfTokens tokens) =
        .error ("ValueError: min() arg is an empty sequence") := by
      unfold validate_sentence
      rw [if_neg (by
        rw [hwords]
        exact fun h => htne (List.length_eq_zero.mp h))]
      rw [if_neg (by
        simp [sentenceOfTokens])]
      rw [hfilter]
      rfl
    refine ⟨("Validation failed on sentence: " ++
      "ValueError: min() arg is an empty sequence"), ?_⟩
    simp only [hval]

/-- Witness for C10: a block holding one null token (which itself passes
token-level validation) is rejected at sentence level. -/
theorem C10_no_regular_id_fails_witness :
    ∃ e, parse_sentence (["0.1\t#NULL\t_\t_\t_\t_\t_\t_\t_\tellipsis\t_\t_"])
      [] = .error e := by
  apply C10_no_regular_id_fails
  · decide
  · intro line hl t ht
    rw [List.mem_singleton] at hl
    subst hl
    rw [show parse_token ("0.1\t#NULL\t_\t_\t_\t_\t_\t_\t_\tellipsis\t_\t_") =
      .ok ⟨"0.1", "#NULL", some "_", none, none, none, none, none, none,
        some "ellipsis", none, none⟩ from by decide] at ht
    cases ht
    right
    decide

/-! ### Helper lemmas: the list model of Python sets -/

theorem mem_insNew {α : Type} [DecidableEq α] (acc : List α) (y x : α) :
    x ∈ insNew acc y ↔ x ∈ acc ∨ x = y := by
  unfold insNew
  by_cases h : y ∈ acc
  · rw [if_pos h]
    constructor
    · exact Or.inl
    · rintro (h1 | rfl)
      · exact h1
      · exact h
  · rw [if_neg h]
    simp

theorem mem_foldl_insNew {α : Type} [DecidableEq α] :
    ∀ (l acc : List α) (x : α),
      x ∈ l.foldl insNew acc ↔ x ∈ acc ∨ x ∈ l := by
  intro l
  induction l with
  | nil => simp
  | cons y ys ih =>
    intro acc x
    rw [List.foldl_cons, ih, mem_insNew]
    simp only [List.mem_cons]
    tauto

theorem mem_pyDedup {α : Type} [DecidableEq α] (l : List α) (x : α) :
    x ∈ pyDedup l ↔ x ∈ l := by
  unfold pyDedup
  rw [mem_foldl_insNew]
  simp

theorem mem_pySetUnion {α : Type} [DecidableEq α] (a b : List α) (x : α) :
    x ∈ pySetUnion a b ↔ x ∈ a ∨ x ∈ b :=
  mem_foldl_insNew b a x

theorem mem_allTags :
    ∀ (sentences : List Sentence) (n : String) (tag : String),
      tag ∈ allTags sentences n ↔ ∃ s ∈ sentences, tag ∈ extractD s n := by
  have haux : ∀ (ss : List Sentence) (n : String) (acc : List String)
      (tag : String),
      tag ∈ ss.foldl (fun acc s => pySetUnion acc (extractD s n)) acc ↔
        tag ∈ acc ∨ ∃ s ∈ ss, tag ∈ extractD s n := by
    intro ss
    induction ss with
    | nil => simp
    | cons s rest ih =>
      intro n acc tag
      rw [List.foldl_cons, ih, mem_pySetUnion]
      simp only [List.mem_cons]
      constructor
      · rintro ((h | h) | ⟨s1, hs1, h1⟩)
        · exact Or.inl h
        · exact Or.inr ⟨s, Or.inl rfl, h⟩
        · exact Or.inr ⟨s1, Or.inr hs1, h1⟩
      · rintro (h | ⟨s1, (rfl | hs1), h1⟩)
        · exact Or.inl (Or.inl h)
        · exact Or.inl (Or.inr h1)
        · exact Or.inr ⟨s1, hs1, h1⟩
  intro sentences n tag
  unfold allTags
  rw [haux]
  simp

/-! ### Helper lemmas: filters and indexed selection -/

theorem length_filter_lt {α : Type} (p : α → Bool) (l : List α) (x : α)
    (hx : x ∈ l) (hpx : p x = false) : (l.filter p).length < l.length := by
  induction l with
  | nil => cases hx
  | cons y ys ih =>
    rcases List.mem_cons.mp hx with rfl | hmem
    · rw [List.filter_cons, hpx]
      exact Nat.lt_succ_of_le (List.length_filter_le p ys)
    · rw [List.filter_cons]
      by_cases hy : p y
      · rw [if_pos (by simp [hy])]
        exact Nat.succ_lt_succ (ih hmem)
      · rw [if_neg (by simp [hy])]
        exact Nat.lt_succ_of_lt (ih hmem)

theorem mem_filterByIndex {α : Type} (p : Nat → Bool) (d : α) :
    ∀ (l : List α) (i0 j : Nat), j < l.length → p (i0 + j) = true →
      l.getD j d ∈ filterByIndex p l i0 := by
  intro l
  induction l with
  | nil =>
    intro i0 j hj
    cases hj
  | cons x xs ih =>
    intro i0 j hj hp
    cases j with
    | zero =>
      have hx : p i0 = true := by simpa using hp
      simp only [filterByIndex, hx, if_true]
      exact List.mem_cons_self x _
    | succ k =>
      have hk : k < xs.length := Nat.lt_of_succ_lt_succ hj
      have hp2 : p ((i0 + 1) + k) = true := by
        have : (i0 + 1) + k = i0 + (k + 1) := by omega
        rw [this]
        exact hp
      have hmem := ih (i0 + 1) k hk hp2
      simp only [filterByIndex, List.getD_cons_succ]
      by_cases hx : p i0
      · rw [if_pos hx]
        exact List.mem_cons_of_mem _ hmem
      · rw [if_neg hx]
        exact hmem

theorem count_filterByIndex {α : Type} [DecidableEq α] (p : Nat → Bool)
    (a : α) :
    ∀ (l : List α) (i0 : Nat),
      (filterByIndex p l i0).count a +
        (filterByIndex (fun n => !(p n)) l i0).count a = l.count a := by
  intro l
  induction l with
  | nil => intro i0; rfl
  | cons x xs ih =>
    intro i0
    by_cases hx : p i0
    · simp [filterByIndex, hx, List.count_cons]
      have := ih (i0 + 1)
      omega
    · have hx2 : p i0 = false := by simpa using hx
      simp [filterByIndex, hx2, List.count_cons]
      have := ih (i0 + 1)
      omega

theorem filterByIndex_append_perm {α : Type} [DecidableEq α] (p : Nat → Bool)
    (l : List α) (i0 : Nat) :
    (filterByIndex p l i0 ++ filterByIndex (fun n => !(p n)) l i0).Perm l :=
  List.perm_iff_count.2 fun a => by
    rw [List.count_append]
    exact count_filterByIndex p a l i0

/-! ### Helper lemmas: the greedy covering loop -/

theorem minItem_mem : ∀ {inv : InvTagset} {q : String × List Nat},
    minItem inv = some q → q ∈ inv := by
  have haux : ∀ (xs : List (String × List Nat)) (x : String × List Nat),
      xs.foldl (fun best y =>
        if y.2.length < best.2.length then y else best) x ∈ x :: xs := by
    intro xs
    induction xs with
    | nil => intro x; exact List.mem_cons_self x []
    | cons y ys ih =>
      intro x
      rw [List.foldl_cons]
      rcases List.mem_cons.mp (ih (if y.2.length < x.2.length then y else x))
        with h | h
      · rw [h]
        by_cases hc : y.2.length < x.2.length
        · rw [if_pos hc]
          exact List.mem_cons_of_mem _ (List.mem_cons_self y ys)
        · rw [if_neg hc]
          exact List.mem_cons_self x _
      · exact List.mem_cons_of_mem _ (List.mem_cons_of_mem _ h)
  intro inv q h
  cases inv with
  | nil => cases h
  | cons x xs =>
    simp only [minItem] at h
    cases h
    exact haux xs x

theorem minItem_none_iff {inv : InvTagset} : minItem inv = none ↔ inv = [] := by
  cases inv with
  | nil => simp [minItem]
  | cons x xs => simp [minItem]

theorem findRarestAux_some :
    ∀ (l : InvTagsets) (acc : Option (String × String × List Nat))
      (r : String × String × List Nat), findRarestAux acc l = some r →
      acc = some r ∨ ∃ inv, (r.1, inv) ∈ l ∧ (r.2.1, r.2.2) ∈ inv := by
  intro l
  induction l with
  | nil =>
    intro acc r h
    exact Or.inl h
  | cons p rest ih =>
    intro acc r h
    obtain ⟨cat, inv⟩ := p
    simp only [findRarestAux] at h
    cases hm : minItem inv with
    | none =>
      rw [hm] at h
      rcases ih acc r h with h1 | ⟨inv1, hmem, hq⟩
      · exact Or.inl h1
      · exact Or.inr ⟨inv1, List.mem_cons_of_mem _ hmem, hq⟩
    | some q =>
      obtain ⟨tag, idxs⟩ := q
      rw [hm] at h
      cases acc with
      | none =>
        rcases ih (some (cat, tag, idxs)) r h with h1 | ⟨inv1, hmem, hq⟩
        · cases h1
          exact Or.inr ⟨inv, List.mem_cons_self _ _, minItem_mem hm⟩
        · exact Or.inr ⟨inv1, List.mem_cons_of_mem _ hmem, hq⟩
      | some best =>
        rcases ih _ r h with h1 | ⟨inv1, hmem, hq⟩
        · by_cases hc : idxs.length < best.2.2.length
          · rw [if_pos hc] at h1
            cases h1
            exact Or.inr ⟨inv, List.mem_cons_self _ _, minItem_mem hm⟩
          · rw [if_neg hc] at h1
            exact Or.inl h1
        · exact Or.inr ⟨inv1, List.mem_cons_of_mem _ hmem, hq⟩

theorem findRarestAux_none :
    ∀ (l : InvTagsets) (acc : Option (String × String × List Nat)),
      findRarestAux acc l = none → acc = none ∧ ∀ p ∈ l, p.2 = [] := by
  intro l
  induction l with
  | nil =>
    intro acc h
    exact ⟨h, by simp⟩
  | cons p rest ih =>
    intro acc h
    obtain ⟨cat, inv⟩ := p
    simp only [findRarestAux] at h
    cases hm : minItem inv with
    | none =>
      rw [hm] at h
      obtain ⟨hacc, hall⟩ := ih acc h
      refine ⟨hacc, ?_⟩
      intro q hq
      rcases List.mem_cons.mp hq with rfl | hmem
      · exact minItem_none_iff.mp hm
      · exact hall q hmem
    | some q =>
      obtain ⟨tag, idxs⟩ := q
      rw [hm] at h
      cases acc with
      | none =>
        obtain ⟨hacc, _⟩ := ih _ h
        cases hacc
      | some best =>
        obtain ⟨hacc, _⟩ := ih _ h
        by_cases hc : idxs.length < best.2.2.length
        · rw [if_pos hc] at hacc
          cases hacc
        · rw [if_neg hc] at hacc
          cases hacc

theorem totalTags_popTag_le (invs : InvTagsets) (cat tag : String) :
    totalTags (popTag invs cat tag) ≤ totalTags invs := by
  unfold totalTags popTag
  induction invs with
  | nil => simp
  | cons p rest ih =>
    simp only [List.map_cons, List.sum_cons]
    have hhead : (if p.1 = cat then
        (p.1, p.2.filter (fun q => q.1 ≠ tag)) else p).2.length ≤
        p.2.length := by
      by_cases hc : p.1 = cat
      · rw [if_pos hc]
        exact List.length_filter_le _ _
      · rw [if_neg hc]
    omega

theorem totalTags_removeCovered_le (invs : InvTagsets) (j : Nat) :
    totalTags (removeCovered invs j) ≤ totalTags invs := by
  unfold totalTags removeCovered
  induction invs with
  | nil => simp
  | cons p rest ih =>
    simp only [List.map_cons, List.sum_cons]
    have hhead : (p.2.filter (fun q => ¬ j ∈ q.2)).length ≤ p.2.length :=
      List.length_filter_le _ _
    omega

theorem totalTags_popTag_lt {invs : InvTagsets} {cat tag : String}
    {inv : InvTagset} {x : List Nat} (hmem : (cat, inv) ∈ invs)
    (hq : (tag, x) ∈ inv) :
    totalTags (popTag invs cat tag) < totalTags invs := by
  induction invs with
  | nil => cases hmem
  | cons p rest ih =>
    rcases List.mem_cons.mp hmem with rfl | hmem2
    · unfold totalTags popTag
      simp only [List.map_cons, List.sum_cons, if_true, reduceIte]
      have hhead : (inv.filter (fun q => q.1 ≠ tag)).length < inv.length := by
        refine length_filter_lt _ inv (tag, x) hq ?_
        simp
      have htail : totalTags (popTag rest cat tag) ≤ totalTags rest :=
        totalTags_popTag_le rest cat tag
      unfold totalTags popTag at htail
      omega
    · unfold totalTags popTag
      simp only [List.map_cons, List.sum_cons]
      have hhead : (if p.1 = cat then
          (p.1, p.2.filter (fun q => q.1 ≠ tag)) else p).2.length ≤
          p.2.length := by
        by_cases hc : p.1 = cat
        · rw [if_pos hc]
          exact List.length_filter_le _ _
        · rw [if_neg hc]
      have htail := ih hmem2
      unfold totalTags popTag at htail
      omega

theorem GoodInv_popTag {P : String → String → Nat → Prop} {invs : InvTagsets}
    (h : GoodInv P invs) (cat tag : String) :
    GoodInv P (popTag invs cat tag) := by
  intro p hp q hq
  unfold popTag at hp
  obtain ⟨p0, hp0, rfl⟩ := List.mem_map.mp hp
  by_cases hc : p0.1 = cat
  · rw [if_pos hc] at hq ⊢
    simp only at hq
    have hq0 : q ∈ p0.2 := List.mem_of_mem_filter hq
    have := h p0 hp0 q hq0
    simpa [hc] using this
  · rw [if_neg hc] at hq ⊢
    exact h p0 hp0 q hq

theorem GoodInv_removeCovered {P : String → String → Nat → Prop}
    {invs : InvTagsets} (h : GoodInv P invs) (j : Nat) :
    GoodInv P (removeCovered invs j) := by
  intro p hp q hq
  unfold removeCovered at hp
  obtain ⟨p0, hp0, rfl⟩ := List.mem_map.mp hp
  simp only at hq
  have hq0 : q ∈ p0.2 := List.mem_of_mem_filter hq
  exact h p0 hp0 q hq0

theorem coverLoop_subset :
    ∀ (fuel : Nat) (invs : InvTagsets) (cover : List Nat) (x : Nat),
      x ∈ cover → x ∈ coverLoop fuel invs cover := by
  intro fuel
  induction fuel with
  | zero => intro invs cover x hx; exact hx
  | succ fuel ih =>
    intro invs cover x hx
    simp only [coverLoop]
    cases hf : findRarest invs with
    | none => exact hx
    | some r =>
      obtain ⟨cat, tag, idxs⟩ := r
      cases idxs with
      | nil => exact hx
      | cons j rest =>
        exact ih _ _ x ((mem_insNew cover j x).mpr (Or.inl hx))

theorem coverLoop_covers (P : String → String → Nat → Prop) :
    ∀ (fuel : Nat) (invs : InvTagsets) (cover : List Nat)
      (cat : String) (inv : InvTagset) (tag : String) (idxs : List Nat),
      totalTags invs < fuel → GoodInv P invs → (cat, inv) ∈ invs →
      (tag, idxs) ∈ inv →
      ∃ i, i ∈ coverLoop fuel invs cover ∧ P cat tag i := by
  intro fuel
  induction fuel with
  | zero =>
    intro invs cover cat inv tag idxs hlt
    cases hlt
  | succ fuel ih =>
    intro invs cover cat inv tag idxs hlt hgood hcat htag
    simp only [coverLoop]
    cases hf : findRarest invs with
    | none =>
      obtain ⟨_, hall⟩ := findRarestAux_none invs none hf
      have : inv = [] := hall (cat, inv) hcat
      rw [this] at htag
      cases htag
    | some r =>
      obtain ⟨c0, t0, idxs0⟩ := r
      obtain ⟨inv0, hc0, ht0⟩ :=
        (findRarestAux_some invs none (c0, t0, idxs0) hf).resolve_left
          (by intro h; cases h)
      have hne0 : idxs0 ≠ [] := (hgood (c0, inv0) hc0 (t0, idxs0) ht0).1
      cases hidxs0 : idxs0 with
      | nil => exact absurd hidxs0 hne0
      | cons j js =>
        have hjmem : j ∈ idxs0 := by rw [hidxs0]; exact List.mem_cons_self j js
        have hPj : P c0 t0 j := (hgood (c0, inv0) hc0 (t0, idxs0) ht0).2 j hjmem
        set invs2 := removeCovered (popTag invs c0 t0) j with hinvs2
        have hlt2 : totalTags invs2 < fuel := by
          have h1 : totalTags (popTag invs c0 t0) < totalTags invs :=
            totalTags_popTag_lt hc0 ht0
          have h2 : totalTags invs2 ≤ totalTags (popTag invs c0 t0) :=
            totalTags_removeCovered_le _ j
          omega
        have hgood2 : GoodInv P invs2 :=
          GoodInv_removeCovered (GoodInv_popTag hgood c0 t0) j
        have hjcov : j ∈ coverLoop fuel invs2 (insNew cover j) :=
          coverLoop_subset fuel invs2 _ j ((mem_insNew cover j j).mpr (Or.inr rfl))
        by_cases hkeep : (tag, idxs) ∈
            (if cat = c0 then inv.filter (fun q => q.1 ≠ t0) else inv).filter
              (fun q => ¬ j ∈ q.2)
        · have hcat2 : (cat, (if cat = c0 then
              inv.filter (fun q => q.1 ≠ t0) else inv).filter
                (fun q => ¬ j ∈ q.2)) ∈ invs2 := by
            rw [hinvs2]
            unfold removeCovered popTag
            rw [List.map_map]
            refine List.mem_map.mpr ⟨(cat, inv), hcat, ?_⟩
            by_cases hc : cat = c0
            · simp [Function.comp, hc]
            · simp [Function.comp, hc]
          exact ih invs2 (insNew cover j) cat _ tag idxs hlt2 hgood2 hcat2 hkeep
        · refine ⟨j, hjcov, ?_⟩
          by_cases hj : j ∈ idxs
          · exact (hgood (cat, inv) hcat (tag, idxs) htag).2 j hj
          · by_cases hc : cat = c0
            · by_cases ht : tag = t0
              · rw [hc, ht]
                exact hPj
              · exfalso
                apply hkeep
                rw [if_pos hc]
                refine List.mem_filter.mpr ⟨List.mem_filter.mpr ⟨htag, ?_⟩, ?_⟩
                · simp [ht]
                · simp [hj]
            · exfalso
              apply hkeep
              rw [if_neg hc]
              exact List.mem_filter.mpr ⟨htag, by simp [hj]⟩

/-! ### Helper lemmas: the built inverted indexes -/

theorem mem_getD_of_mem {α : Type} (l : List α) (a d : α) (h : a ∈ l) :
    ∃ i, i < l.length ∧ l.getD i d = a := by
  obtain ⟨i, hi, hg⟩ := List.mem_iff_getElem.mp h
  refine ⟨i, hi, ?_⟩
  rw [List.getD_eq_getElem l d hi]
  exact hg

theorem initInvs_good (pool : List Sentence) (names : List String) :
    GoodInv (CoversAt pool) (initInvs pool names) := by
  intro p hp q hq
  obtain ⟨n, hn, rfl⟩ := List.mem_map.mp hp
  obtain ⟨tag, htag, rfl⟩ := List.mem_map.mp hq
  constructor
  · obtain ⟨s, hs, hts⟩ := (mem_allTags pool n tag).mp htag
    obtain ⟨i, hi, hgd⟩ := mem_getD_of_mem pool s emptySentence hs
    apply List.ne_nil_of_mem (a := i)
    refine List.mem_filter.mpr ⟨List.mem_range.mpr hi, ?_⟩
    rw [hgd]
    exact decide_eq_true hts
  · intro i hi
    have := List.mem_filter.mp hi
    exact ⟨List.mem_range.mp this.1, of_decide_eq_true this.2⟩

theorem initInvs_has_entry {pool : List Sentence} {names : List String}
    {n tag : String} (hn : n ∈ names) (htag : tag ∈ allTags pool n) :
    ∃ inv idxs, (n, inv) ∈ initInvs pool names ∧ (tag, idxs) ∈ inv := by
  refine ⟨(allTags pool n).map (fun tag =>
    (tag, (List.range pool.length).filter
      (fun i => tag ∈ extractD (pool.getD i emptySentence) n))),
    (List.range pool.length).filter
      (fun i => tag ∈ extractD (pool.getD i emptySentence) n),
    ?_, ?_⟩
  · exact List.mem_map.mpr ⟨n, (mem_pyDedup names n).mpr hn, rfl⟩
  · exact List.mem_map.mpr ⟨tag, htag, rfl⟩

theorem build_min_coverage_covers {pool : List Sentence}
    {names : List String} {cov : List Nat}
    (hcov : build_min_coverage pool names = .ok cov)
    {n : String} (hn : n ∈ names) {s : Sentence} (hs : s ∈ pool)
    {tag : String} (htag : tag ∈ extractD s n) :
    ∃ i, i ∈ cov ∧ i < pool.length ∧
      tag ∈ extractD (pool.getD i emptySentence) n := by
  unfold build_min_coverage at hcov
  cases hch : checkExtracts pool names with
  | error e => rw [hch] at hcov; cases hcov
  | ok u =>
    rw [hch] at hcov
    cases hcov
    have htag2 : tag ∈ allTags pool n := (mem_allTags pool n tag).mpr ⟨s, hs, htag⟩
    obtain ⟨inv, idxs, hinv, hidxs⟩ := initInvs_has_entry hn htag2
    obtain ⟨i, hicov, hP⟩ := coverLoop_covers (CoversAt pool)
      (totalTags (initInvs pool names) + 1) (initInvs pool names) []
      n inv tag idxs (Nat.lt_succ_self _) (initInvs_good pool names) hinv hidxs
    exact ⟨i, hicov, hP.1, hP.2⟩

theorem checkExtractsRow_ok {s : Sentence} :
    ∀ {ns : List String}, (∀ n ∈ ns, (extract_sentence_tagset s n).isOk = true) →
      checkExtractsRow s ns = .ok () := by
  intro ns
  induction ns with
  | nil => intro _; rfl
  | cons n rest ih =>
    intro h
    simp only [checkExtractsRow]
    cases hx : extract_sentence_tagset s n with
    | error e =>
      have := h n (List.mem_cons_self n rest)
      rw [hx] at this
      cases this
    | ok v => exact ih (fun m hm => h m (List.mem_cons_of_mem _ hm))

theorem checkExtracts_ok :
    ∀ {ss : List Sentence} {ns : List String},
      (∀ s ∈ ss, ∀ n ∈ ns, (extract_sentence_tagset s n).isOk = true) →
      checkExtracts ss ns = .ok () := by
  intro ss
  induction ss with
  | nil => intro ns _; rfl
  | cons s rest ih =>
    intro ns h
    simp only [checkExtracts]
    rw [checkExtractsRow_ok (h s (List.mem_cons_self s rest))]
    exact ih (fun t ht n hn => h t (List.mem_cons_of_mem _ ht) n hn)

/-! ### Claim C8 (minimum coverage) -/

/-- C8.  For every finite sentence pool and every list of tag-category names
(valid stratification categories, i.e. names whose per-sentence tagset
extraction succeeds), `build_min_coverage` terminates with a cover set such
that every tag value occurring in some sentence of the pool under some
requested category also occurs in the sentence at some covered position. -/
theorem C8_min_coverage_hits_every_tag (pool : List Sentence)
    (names : List String)
    (hok : ∀ s ∈ pool, ∀ n ∈ names, (extract_sentence_tagset s n).isOk = true)
    (n : String) (hn : n ∈ names) (s : Sentence) (hs : s ∈ pool)
    (tag : String) (htag : tag ∈ extractD s n) :
    ∃ cov, build_min_coverage pool names = .ok cov ∧
      ∃ i, i ∈ cov ∧ i < pool.length ∧
        tag ∈ extractD (pool.getD i emptySentence) n := by
  have hbuild : build_min_coverage pool names =
      .ok (coverLoop (totalTags (initInvs pool names) + 1)
        (initInvs pool names) []) := by
    unfold build_min_coverage
    rw [checkExtracts_ok hok]
  exact ⟨_, hbuild, build_min_coverage_covers hbuild hn hs htag⟩

/-- Witness for C8: the three-sentence upos example of the specification
(tag sets `{N, V}`, `{V, ADJ}`, `{ADJ}`), at the tag `ADJ` of the third
sentence; the cover hits it at position 1. -/
theorem C8_min_coverage_hits_every_tag_witness :
    ∃ cov, build_min_coverage
        [{ emptySentence with upos := [some ("N"), some ("V")] },
         { emptySentence with upos := [some ("V"), some ("ADJ")] },
         { emptySentence with upos := [some ("ADJ")] }] (["upos"]) = .ok cov ∧
      ∃ i, i ∈ cov ∧ i < 3 ∧
        ("ADJ") ∈ extractD
          ([{ emptySentence with upos := [some ("N"), some ("V")] },
            { emptySentence with upos := [some ("V"), some ("ADJ")] },
            { emptySentence with upos := [some ("ADJ")] }].getD i
            emptySentence) ("upos") := by
  have h := C8_min_coverage_hits_every_tag
    [{ emptySentence with upos := [some ("N"), some ("V")] },
     { emptySentence with upos := [some ("V"), some ("ADJ")] },
     { emptySentence with upos := [some ("ADJ")] }] (["upos"])
    (by intro s hs n hn; fin_cases hs <;> fin_cases hn <;> decide)
    ("upos") (by decide)
    ({ emptySentence with upos := [some ("ADJ")] })
    (by decide) ("ADJ") (by decide)
  simpa using h

/-! ### Helper lemmas: the allocation loop -/

theorem splitLoop_perm {names : List String} {a b : Nat} :
    ∀ (fuel : Nat) (st st' : SplitState),
      splitLoop names a b fuel st = .ok st' →
      (st'.train ++ st'.test ++ st'.pool).Perm
        (st.train ++ st.test ++ st.pool) := by
  intro fuel
  induction fuel with
  | zero =>
    intro st st' h
    simp only [splitLoop] at h
    by_cases hc : st.train.length < a ∧ st.test.length < b
    · rw [if_pos hc] at h
      cases h
    · rw [if_neg hc] at h
      cases h
      exact List.Perm.refl _
  | succ fuel ih =>
    intro st st' h
    simp only [splitLoop] at h
    by_cases hc : st.train.length < a ∧ st.test.length < b
    · rw [if_pos hc] at h
      cases hb1 : build_min_coverage st.pool names with
      | error e => rw [hb1] at h; cases h
      | ok cov =>
        simp only [hb1] at h
        cases hb2 : build_min_coverage
            (filterByIndex (fun i => !cov.contains i) st.pool 0) names with
        | error e => simp only [hb2] at h; cases h
        | ok cov2 =>
          simp only [hb2] at h
          have hstep := ih _ _ h
          have hAB := filterByIndex_append_perm
            (fun i => cov.contains i) st.pool 0
          have hBC := filterByIndex_append_perm
            (fun i => cov2.contains i)
            (filterByIndex (fun i => !cov.contains i) st.pool 0) 0
          refine hstep.trans (List.perm_iff_count.2 fun x => ?_)
          have h1 := hAB.count_eq x
          have h2 := hBC.count_eq x
          simp only [List.count_append] at h1 h2 ⊢
          omega
    · rw [if_neg hc] at h
      cases h
      exact List.Perm.refl _

theorem splitLoop_train_mono {names : List String} {a b : Nat} :
    ∀ (fuel : Nat) (st st' : SplitState),
      splitLoop names a b fuel st = .ok st' →
      ∀ x ∈ st.train, x ∈ st'.train := by
  intro fuel
  induction fuel with
  | zero =>
    intro st st' h x hx
    simp only [splitLoop] at h
    by_cases hc : st.train.length < a ∧ st.test.length < b
    · rw [if_pos hc] at h
      cases h
    · rw [if_neg hc] at h
      cases h
      exact hx
  | succ fuel ih =>
    intro st st' h x hx
    simp only [splitLoop] at h
    by_cases hc : st.train.length < a ∧ st.test.length < b
    · rw [if_pos hc] at h
      cases hb1 : build_min_coverage st.pool names with
      | error e => rw [hb1] at h; cases h
      | ok cov =>
        simp only [hb1] at h
        cases hb2 : build_min_coverage
            (filterByIndex (fun i => !cov.contains i) st.pool 0) names with
        | error e => simp only [hb2] at h; cases h
        | ok cov2 =>
          simp only [hb2] at h
          exact ih _ _ h x (List.mem_append.mpr (Or.inl hx))
    · rw [if_neg hc] at h
      cases h
      exact hx

/-- The facts recoverable from a normal return of `train_test_split`: the
fraction guard held, the allocation loop returned some final state, the
returned pair is that state with the unallocated pool absorbed into one side,
and the two final assertions held. -/
theorem train_test_split_ok_parts {sentences : List Sentence} {f : ℚ}
    {names : List String} {train test : List Sentence}
    (h : train_test_split sentences f names = .ok (train, test)) :
    (0 < f ∧ f < 1) ∧
    ∃ st, splitLoop names (target_train_size f sentences.length)
        (target_test_size f sentences.length) (sentences.length + 1)
        { train := [], test := [], pool := sentences } = .ok st ∧
      ((train = st.train ++ st.pool ∧ test = st.test) ∨
        (train = st.train ∧ test = st.test ++ st.pool)) ∧
      train.length + test.length = sentences.length ∧
      sentences.length ≠ 0 ∧
      pyIsClose ((train.length : ℚ) / (sentences.length : ℚ)) f := by
  simp only [train_test_split] at h
  by_cases hfr : 0 < f ∧ f < 1
  · rw [if_neg (not_not_intro hfr)] at h
    refine ⟨hfr, ?_⟩
    cases hsl : splitLoop names (target_train_size f sentences.length)
        (target_test_size f sentences.length) (sentences.length + 1)
        { train := [], test := [], pool := sentences } with
    | error e => simp only [hsl] at h; cases h
    | ok st =>
      simp only [hsl] at h
      refine ⟨st, rfl, ?_⟩
      by_cases habs : st.train.length < target_train_size f sentences.length
      · rw [if_pos habs, if_pos habs] at h
        by_cases hsum : (st.train ++ st.pool).length + st.test.length =
            sentences.length
        · rw [if_pos hsum] at h
          by_cases hz : sentences.length = 0
          · rw [if_pos hz] at h
            cases h
          · rw [if_neg hz] at h
            by_cases hclose : pyIsClose
                (((st.train ++ st.pool).length : ℚ) /
                  (sentences.length : ℚ)) f
            · rw [if_pos hclose] at h
              cases h
              exact ⟨Or.inl ⟨rfl, rfl⟩, hsum, hz, hclose⟩
            · rw [if_neg hclose] at h
              cases h
        · rw [if_neg hsum] at h
          cases h
      · rw [if_neg habs, if_neg habs] at h
        by_cases hsum : st.train.length + (st.test ++ st.pool).length =
            sentences.length
        · rw [if_pos hsum] at h
          by_cases hz : sentences.length = 0
          · rw [if_pos hz] at h
            cases h
          · rw [if_neg hz] at h
            by_cases hclose : pyIsClose
                ((st.train.length : ℚ) / (sentences.length : ℚ)) f
            · rw [if_pos hclose] at h
              cases h
              exact ⟨Or.inr ⟨rfl, rfl⟩, hsum, hz, hclose⟩
            · rw [if_neg hclose] at h
              cases h
        · rw [if_neg hsum] at h
          cases h
  · rw [if_pos hfr] at h
    cases h

/-! ### Claim C4 (target sizes) -/

/-- C4 counterexample.  The claim says the target train size is `f·N` rounded
to the nearest integer.  With `f = 7/10` and `N = 4` the code computes
`int(0.7 * 4) = 2` (truncation), while rounding `2.8` to the nearest integer
gives `3`. -/
theorem C4_round_counterexample :
    target_train_size (7/10) 4 = 2 ∧
    round ((7/10 : ℚ) * ((4 : ℕ) : ℚ)) = 3 ∧
    (2 : ℕ) ≠ (round ((7/10 : ℚ) * ((4 : ℕ) : ℚ))).toNat := by
  refine ⟨by with_unfolding_all decide, by with_unfolding_all decide,
    by with_unfolding_all decide⟩

/-- C4, as amended.  For every fraction `0 < f < 1` and input size `N`, the
target train size is `⌊f·N⌋` — `f·N` truncated to an integer, not rounded to
the nearest one — and the target test size is `N - ⌊f·N⌋`. -/
theorem C4_targets_are_truncated (f : ℚ) (n : ℕ) (h0 : 0 < f) (h1 : f < 1) :
    target_train_size f n = (⌊f * n⌋).toNat ∧
    target_test_size f n = n - (⌊f * n⌋).toNat ∧
    target_train_size f n ≤ n := by
  have hnn : (0 : ℚ) ≤ f * n := mul_nonneg h0.le (Nat.cast_nonneg n)
  have htr : target_train_size f n = (⌊f * n⌋).toNat := by
    unfold target_train_size pyInt
    rw [if_neg (not_lt.mpr hnn)]
  have hle : target_train_size f n ≤ n := by
    rw [htr]
    have h2 : f * n ≤ (n : ℚ) := by
      calc f * (n : ℚ) ≤ 1 * n :=
            mul_le_mul_of_nonneg_right h1.le (Nat.cast_nonneg n)
        _ = n := one_mul _
    have h3 : ⌊f * (n : ℚ)⌋ ≤ ⌊((n : ℚ))⌋ := Int.floor_le_floor h2
    rw [Int.floor_natCast] at h3
    exact Int.toNat_le.mpr h3
  exact ⟨htr, by unfold target_test_size; rw [htr], hle⟩

/-- Witness for C4 as amended, at `f = 1/2`, `N = 4`. -/
theorem C4_targets_are_truncated_witness :
    target_train_size (1/2) 4 = (⌊((1 : ℚ)/2) * ((4 : ℕ) : ℚ)⌋).toNat ∧
    target_test_size (1/2) 4 = 4 - (⌊((1 : ℚ)/2) * ((4 : ℕ) : ℚ)⌋).toNat ∧
    target_train_size (1/2) 4 ≤ 4 :=
  C4_targets_are_truncated (1/2) 4 (by norm_num) (by norm_num)

/-! ### Claims C6, C7 (split fraction and partition) -/

/-- C6.  For a 100-sentence input and `f = 0.8`, whenever `train_test_split`
returns a pair normally (its final assertions are the embedded guards), the
sizes sum to 100 and the realized train share lies in `[0.75, 0.85]`. -/
theorem C6_split_fraction_100 (sentences : List Sentence)
    (names : List String) (train test : List Sentence)
    (hN : sentences.length = 100)
    (h : train_test_split sentences (4/5) names = .ok (train, test)) :
    train.length + test.length = 100 ∧
    75 ≤ train.length ∧ train.length ≤ 85 := by
  obtain ⟨-, st, -, -, hsum, -, hclose⟩ := train_test_split_ok_parts h
  rw [hN] at hsum hclose
  unfold pyIsClose at hclose
  rw [show |(4 : ℚ)/5| = 4/5 from by norm_num] at hclose
  rw [abs_le] at hclose
  obtain ⟨hlo, hhi⟩ := hclose
  push_cast at hlo hhi
  refine ⟨hsum, ?_, ?_⟩
  · by_contra hk
    push_neg at hk
    have hk2 : (train.length : ℚ) ≤ 74 := by
      have : train.length ≤ 74 := by omega
      exact_mod_cast this
    linarith
  · by_contra hk
    push_neg at hk
    have hk2 : (86 : ℚ) ≤ (train.length : ℚ) := by
      have : 86 ≤ train.length := by omega
      exact_mod_cast this
    linarith

set_option maxRecDepth 1000000 in
/-- Witness for C6: on `W100` the split returns its first 80 sentences as
train and its last 20 as test. -/
theorem C6_split_fraction_100_witness :
    W100.length = 100 ∧
    ((W100.take 80).length + (W100.drop 80).length = 100 ∧
      75 ≤ (W100.take 80).length ∧ (W100.take 80).length ≤ 85) :=
  ⟨by with_unfolding_all decide,
   C6_split_fraction_100 W100 (["upos"]) (W100.take 80) (W100.drop 80)
     (by with_unfolding_all decide)
     (by with_unfolding_all exact rfl)⟩

set_option linter.unusedVariables false in
/-- C7.  Whenever `train_test_split` returns normally, the returned train and
test sequences together are a permutation of the input: no sentence is
dropped or duplicated. -/
theorem C7_partition_permutation (sentences : List Sentence) (f : ℚ)
    (names : List String) (train test : List Sentence)
    (h0 : 0 < f) (h1 : f < 1)
    (h : train_test_split sentences f names = .ok (train, test)) :
    (train ++ test).Perm sentences := by
  obtain ⟨-, st, hsl, hparts, -, -, -⟩ := train_test_split_ok_parts h
  have hperm := splitLoop_perm _ _ _ hsl
  simp only [List.nil_append] at hperm
  refine List.perm_iff_count.2 fun x => ?_
  have hc := hperm.count_eq x
  simp only [List.count_append] at hc ⊢
  rcases hparts with ⟨rfl, rfl⟩ | ⟨rfl, rfl⟩ <;>
    simp only [List.count_append] <;> omega

/-- Witness for C7, on a two-sentence input split in half. -/
theorem C7_partition_permutation_witness :
    (([sTag ("A")] ++ [sTag ("A")]).Perm (List.replicate 2 (sTag ("A")))) :=
  C7_partition_permutation (List.replicate 2 (sTag ("A"))) (1/2) (["upos"])
    [sTag ("A")] [sTag ("A")] (by norm_num) (by norm_num)
    (by with_unfolding_all decide)

/-! ### Claim C5 (split coverage) -/

theorem splitLoop_first_train {names : List String} {a b fuel : Nat}
    {st st' : SplitState} (h : splitLoop names a b fuel st = .ok st')
    (hcond : st.train.length < a ∧ st.test.length < b) :
    ∃ cov, build_min_coverage st.pool names = .ok cov ∧
      ∀ x ∈ st.train ++ filterByIndex (fun i => cov.contains i) st.pool 0,
        x ∈ st'.train := by
  cases fuel with
  | zero =>
    simp only [splitLoop] at h
    rw [if_pos hcond] at h
    cases h
  | succ fuel =>
    simp only [splitLoop] at h
    rw [if_pos hcond] at h
    cases hb1 : build_min_coverage st.pool names with
    | error e => rw [hb1] at h; cases h
    | ok cov =>
      simp only [hb1] at h
      cases hb2 : build_min_coverage
          (filterByIndex (fun i => !cov.contains i) st.pool 0) names with
      | error e => simp only [hb2] at h; cases h
      | ok cov2 =>
        simp only [hb2] at h
        exact ⟨cov, rfl, splitLoop_train_mono _ _ _ h⟩

/-- C5 counterexample.  The claim says every tag value occurring in at least
two input sentences reaches both sides of the returned partition.  With ten
identical sentences tagged `A` and `f = 0.04`, the target train size is
`int(0.4) = 0`, the allocation loop never runs, every sentence is absorbed
into test, and the final assertion `|0 - 0.04| ≤ 0.05 + rtol·0.04` passes —
so the call returns normally with an *empty* train side even though the tag
occurs in all ten sentences. -/
theorem C5_coverage_counterexample :
    train_test_split (List.replicate 10 (sTag ("A"))) (1/25) (["upos"]) =
      .ok ([], List.replicate 10 (sTag ("A"))) ∧
    ((List.replicate 10 (sTag ("A"))).filter
      (fun s => ("A") ∈ extractD s ("upos"))).length = 10 ∧
    (([] : List Sentence).filter
      (fun s => ("A") ∈ extractD s ("upos"))).length = 0 := by
  refine ⟨by with_unfolding_all decide, by with_unfolding_all decide, rfl⟩

/-- C5, as amended.  The two-sided coverage guarantee does not hold of the
code; what holds is one-sided: whenever `train_test_split` returns normally
and both target sizes are positive (so the allocation loop runs at least
once), every tag value occurring in any input sentence under any requested
category occurs in at least one *train* sentence — the first covering pass
runs over the full input and its cover is moved into train.  No analogous
guarantee holds for test (the counterexample kills the two-sided claim even
for tags occurring in ten sentences). -/
theorem C5_train_covers_when_loop_runs (sentences : List Sentence) (f : ℚ)
    (names : List String) (train test : List Sentence)
    (h : train_test_split sentences f names = .ok (train, test))
    (htr : 0 < target_train_size f sentences.length)
    (hte : 0 < target_test_size f sentences.length)
    (n : String) (hn : n ∈ names) (s : Sentence) (hs : s ∈ sentences)
    (tag : String) (htag : tag ∈ extractD s n) :
    ∃ t ∈ train, tag ∈ extractD t n := by
  obtain ⟨-, st, hsl, hparts, -, -, -⟩ := train_test_split_ok_parts h
  have hcond : (SplitState.mk [] [] sentences).train.length <
      target_train_size f sentences.length ∧
      (SplitState.mk [] [] sentences).test.length <
      target_test_size f sentences.length := by
    simpa using ⟨htr, hte⟩
  obtain ⟨cov, hcov, hmono⟩ := splitLoop_first_train hsl hcond
  obtain ⟨i, hicov, hilt, hitag⟩ := build_min_coverage_covers hcov hn hs htag
  refine ⟨sentences.getD i emptySentence, ?_, hitag⟩
  have hmem : sentences.getD i emptySentence ∈
      filterByIndex (fun j => cov.contains j) sentences 0 := by
    refine mem_filterByIndex _ _ sentences 0 i hilt ?_
    rw [Nat.zero_add]
    exact List.elem_eq_true_of_mem hicov
  have hst : sentences.getD i emptySentence ∈ st.train :=
    hmono _ (List.mem_append.mpr (Or.inr hmem))
  rcases hparts with ⟨rfl, -⟩ | ⟨rfl, -⟩
  · exact List.mem_append.mpr (Or.inl hst)
  · exact hst

/-- Witness for C5 as amended: two sentences tagged `A`, split in half; the
tag occurs in the returned train side. -/
theorem C5_train_covers_when_loop_runs_witness :
    ∃ t ∈ [sTag ("A")], ("A") ∈ extractD t ("upos") :=
  C5_train_covers_when_loop_runs (List.replicate 2 (sTag ("A"))) (1/2)
    (["upos"]) [sTag ("A")] [sTag ("A")]
    (by with_unfolding_all decide)
    (by with_unfolding_all decide) (by with_unfolding_all decide)
    ("upos") (by decide) (sTag ("A")) (by decide) ("A") (by decide)

end DatasetTools
